import Mathlib

/-!
Verification of the line-highlight selector of the blog's code-block
renderer (`calculateLinesToHighlight` in `src/components/code.js`).

The JavaScript source is

  const calculateLinesToHighlight = (meta) => then
    const RegEx = a regex matching a brace, one or more of [0-9,-], a brace;
    if (RegEx.test(meta)) then
      lineNumbers = RegEx.exec(meta)[1].split(",")
                      .map(v => v.split("-").map(y => parseInt(y, 10)));
      return (index) =>
        lineNumber = index + 1;
        lineNumbers.some(([start, end]) =>
          end ? lineNumber >= start && lineNumber <= end
              : lineNumber === start)
    else return () => false

The embedding below models JavaScript NaN as `none : Option Nat` (every
numeric comparison with it is false, and it is falsy), a missing array
element (destructuring past the end) as an absent `List.get?` entry, and
JavaScript truthiness of the `end` bound: falsy exactly when it is
undefined, NaN, or the number 0.  A meta string that is absent
(`undefined` in JavaScript) is coerced by `RegEx.test` to the literal
string "undefined", which never matches the pattern.
-/

namespace Blog

/-- The left brace character, written by code point to keep string
literals free of braces. -/
def lbrace : Char := Char.ofNat 123

/-- The right brace character. -/
def rbrace : Char := Char.ofNat 125

/-- Membership in the regex character class [0-9,-]. -/
def isTokCh (c : Char) : Bool := c.isDigit || c = ',' || c = '-'

/-- One attempt of the regex body at a position just after a left brace:
the greedy run of class characters must be nonempty and be followed by a
right brace; the run is the capture group.  (Backtracking the greedy
quantifier can never succeed here, because every shorter run is followed
by a class character, which is not a right brace.) -/
def groupAt (rest : List Char) : Option (List Char) :=
  match rest.drop (rest.takeWhile isTokCh).length with
  | d :: _ =>
    if (rest.takeWhile isTokCh).isEmpty = false && d = rbrace then
      some (rest.takeWhile isTokCh)
    else none
  | [] => none

/-- The first match of the regex over the whole string: scan left to
right, attempting the body at each left brace. -/
def firstGroup : List Char → Option (List Char)
  | [] => none
  | c :: rest =>
    if c = lbrace then
      match groupAt rest with
      | some run => some run
      | none => firstGroup rest
    else firstGroup rest

/-- RegEx.exec on the meta string: the first capture group, if any. -/
def regexExec (s : List Char) : Option (List Char) := firstGroup s

/-- RegEx.test on the meta string.  The regex has no global flag, so
test and exec run the same stateless match. -/
def regexTest (s : List Char) : Bool := (regexExec s).isSome

/-- JavaScript String.prototype.split on a single-character separator:
splitting the empty string yields one empty piece, and every occurrence
of the separator starts a new piece. -/
def splitOn (sep : Char) : List Char → List (List Char)
  | [] => [[]]
  | c :: rest =>
    if c = sep then [] :: splitOn sep rest
    else
      match splitOn sep rest with
      | [] => [[c]]
      | h :: t => (c :: h) :: t

/-- The numeric value of a list of decimal digit characters. -/
def digitsVal (l : List Char) : Nat :=
  l.foldl (fun a c => a * 10 + (c.toNat - 48)) 0

/-- JavaScript parseInt(y, 10) on the strings produced here (runs of
digits, possibly empty): the value of the leading digit run, or NaN
(modelled as `none`) when there is none. -/
def parseInt (s : List Char) : Option Nat :=
  if (s.takeWhile Char.isDigit).isEmpty then none
  else some (digitsVal (s.takeWhile Char.isDigit))

/-- One comma token parsed: v.split("-").map(y => parseInt(y, 10)). -/
def parseParts (v : List Char) : List (Option Nat) :=
  (splitOn '-' v).map parseInt

/-- The lineNumbers array built from the capture group. -/
def lineNumbersOf (content : List Char) : List (List (Option Nat)) :=
  (splitOn ',' content).map parseParts

/-- JavaScript strict equality lineNumber === start, where start may be
NaN. -/
def jsEq (lineNumber : Nat) (start : Option Nat) : Bool :=
  match start with
  | some s => lineNumber == s
  | none => false

/-- The body of lineNumbers.some: destructure [start, end] from the
parsed token and test.  The bound `end` is truthy exactly when it is a
number other than 0; comparisons against a NaN start are false. -/
def inRangeTok (parts : List (Option Nat)) (lineNumber : Nat) : Bool :=
  match parts.get? 1 with
  | some (some e) =>
    if e = 0 then jsEq lineNumber (parts.getD 0 none)
    else
      match parts.getD 0 none with
      | some s => decide (s ≤ lineNumber) && decide (lineNumber ≤ e)
      | none => false
  | _ => jsEq lineNumber (parts.getD 0 none)

/-- The predicate returned in the successful branch, closing over the
parsed lineNumbers. -/
def mkPredicate (content : List Char) : Nat → Bool :=
  fun index => (lineNumbersOf content).any fun parts => inRangeTok parts (index + 1)

/-- The string the regex actually sees: an absent meta string is coerced
to "undefined" by the regex methods. -/
def metaString : Option String → String
  | none => "undefined"
  | some s => s

/-- calculateLinesToHighlight.  As test and exec run the same stateless
match, the branch on test is the branch on exec succeeding. -/
def calculateLinesToHighlight (meta : Option String) : Nat → Bool :=
  match regexExec (metaString meta).data with
  | some content => mkPredicate content
  | none => fun _ => false

/-- calculateLinesToHighlight with the source's control flow kept
explicit: the guard is RegEx.test, and inside the guarded branch the
capture-group access RegEx.exec(meta)[1] would throw if exec returned
null; that crash is modelled as `none`. -/
def calculateLinesToHighlightE (meta : Option String) : Option (Nat → Bool) :=
  if regexTest (metaString meta).data then
    match regexExec (metaString meta).data with
    | some content => some (mkPredicate content)
    | none => none
  else some fun _ => false

/-- The parsed token list a meta string gives rise to: the lineNumbers
array when the regex matches, empty otherwise. -/
def parsedTokens (meta : Option String) : List (List (Option Nat)) :=
  match regexExec (metaString meta).data with
  | some content => lineNumbersOf content
  | none => []

/-! ### Helper lemmas -/

/-- The predicate is the disjunction, over the parsed tokens, of the
per-token membership test. -/
theorem highlight_eq_any (meta : Option String) (i : Nat) :
    calculateLinesToHighlight meta i
      = (parsedTokens meta).any (fun parts => inRangeTok parts (i + 1)) := by
  unfold calculateLinesToHighlight parsedTokens
  cases h : regexExec (metaString meta).data <;> simp [mkPredicate]

/-- When the regex does not match, the predicate is constantly false. -/
theorem highlight_of_exec_none (meta : Option String)
    (h : regexExec (metaString meta).data = none) :
    ∀ i, calculateLinesToHighlight meta i = false := by
  intro i
  unfold calculateLinesToHighlight
  rw [h]

/-- Splitting a string that does not contain the separator yields the
string as its only piece. -/
theorem splitOn_eq_single (sep : Char) (l : List Char) (h : sep ∉ l) :
    splitOn sep l = [l] := by
  induction l with
  | nil => rfl
  | cons c rest ih =>
    have hc : ¬c = sep := fun hcs => h (hcs ▸ List.mem_cons_self c rest)
    have hrest : sep ∉ rest := fun hm => h (List.mem_cons_of_mem c hm)
    simp only [splitOn, if_neg hc, ih hrest]

/-- parseInt evaluates a nonempty all-digit string to its value. -/
theorem parseInt_digits (v : List Char) (hne : v ≠ [])
    (hd : ∀ c ∈ v, c.isDigit = true) :
    parseInt v = some (digitsVal v) := by
  have htw : v.takeWhile Char.isDigit = v := List.takeWhile_eq_self_iff.mpr hd
  unfold parseInt
  rw [htw, if_neg (by simpa [List.isEmpty_iff] using hne)]

/-- A token containing no hyphen and only digits parses to the
one-element list holding its value. -/
theorem parseParts_digits (v : List Char) (hne : v ≠ [])
    (hd : ∀ c ∈ v, c.isDigit = true) :
    parseParts v = [some (digitsVal v)] := by
  have hnh : '-' ∉ v := fun hm => by
    have := hd '-' hm
    simp [Char.isDigit] at this
  unfold parseParts
  rw [splitOn_eq_single '-' v hnh, List.map_cons, List.map_nil,
    parseInt_digits v hne hd]

/-- Taking while a predicate holds over a block of satisfying characters
followed by a failing one stops exactly at the block. -/
theorem takeWhile_block (p : Char → Bool) (run tl : List Char) (x : Char)
    (hall : ∀ c ∈ run, p c = true) (hx : p x = false) :
    ((run ++ x :: tl).takeWhile p) = run := by
  induction run with
  | nil => simp [List.takeWhile_cons, hx]
  | cons c r ih =>
    have hc := hall c (List.mem_cons_self c r)
    simp only [List.cons_append, List.takeWhile_cons, hc, if_pos]
    rw [ih fun d hd => hall d (List.mem_cons_of_mem c hd)]

/-- The capture group of a successful match is nonempty and drawn from
the regex character class. -/
theorem groupAt_some (rest run : List Char) (h : groupAt rest = some run) :
    run = rest.takeWhile isTokCh ∧ run ≠ [] := by
  unfold groupAt at h
  split at h
  · split at h
    · have hrun : rest.takeWhile isTokCh = run := Option.some_inj.mp h
      rename_i hcond
      have hem : (rest.takeWhile isTokCh).isEmpty = false :=
        of_decide_eq_true ((Bool.and_eq_true _ _).mp hcond).1
      refine ⟨hrun.symm, ?_⟩
      rw [hrun] at hem
      exact List.isEmpty_eq_false.mp hem
    · exact absurd h (by simp)
  · exact absurd h (by simp)

/-- Every successful first match has a nonempty capture group of class
characters. -/
theorem firstGroup_mem (l run : List Char) (h : firstGroup l = some run) :
    run ≠ [] ∧ ∀ c ∈ run, isTokCh c = true := by
  induction l with
  | nil => exact absurd h (by simp [firstGroup])
  | cons c rest ih =>
    unfold firstGroup at h
    by_cases hc : c = lbrace
    · rw [if_pos hc] at h
      cases hg : groupAt rest with
      | some r =>
        rw [hg] at h
        obtain ⟨htw, hne⟩ := groupAt_some rest r hg
        have hr : r = run := Option.some_inj.mp h
        refine ⟨hr ▸ hne, ?_⟩
        intro x hx
        rw [← hr] at hx
        rw [htw] at hx
        exact List.mem_takeWhile_imp hx
      | none =>
        rw [hg] at h
        exact ih h
    · rw [if_neg hc] at h
      exact ih h

/-- A string that is exactly one bracket group around nonempty class
content matches with that content as the capture group. -/
theorem firstGroup_bracket (content : List Char) (hne : content ≠ [])
    (hall : ∀ c ∈ content, isTokCh c = true) :
    firstGroup (lbrace :: (content ++ [rbrace])) = some content := by
  have hbr : isTokCh rbrace = false := by decide
  have htw : ((content ++ [rbrace]).takeWhile isTokCh) = content :=
    takeWhile_block isTokCh content [] rbrace hall hbr
  unfold firstGroup groupAt
  rw [if_pos rfl, htw, List.drop_left]
  simp [List.isEmpty_iff, hne]

/-- A parsed pair token tests the bounded range when the upper bound is
truthy, and collapses to the single-line test against the first bound
when the upper bound is 0. -/
theorem inRangeTok_pair (s e ln : Nat) :
    inRangeTok [some s, some e] ln
      = if e = 0 then (ln == s) else (decide (s ≤ ln) && decide (ln ≤ e)) := rfl

/-- A parsed single token tests equality with its value. -/
theorem inRangeTok_single (s ln : Nat) :
    inRangeTok [some s] ln = (ln == s) := rfl

/-- A token whose first bound failed to parse (NaN start) never
matches. -/
theorem inRangeTok_nan_start (parts : List (Option Nat))
    (h : parts.getD 0 none = none) (ln : Nat) :
    inRangeTok parts ln = false := by
  unfold inRangeTok
  rw [h]
  split
  · split
    · rfl
    · rfl
  · rfl

/-! ### Claim theorems -/

/-- Claim C3: for a meta string that is absent, empty, or contains no
substring matching the bracketed-integer-list pattern,
calculateLinesToHighlight returns (without failing) a constant predicate
answering false at every index. -/
theorem C3_no_bracket_false (meta : Option String)
    (h : meta = none ∨ meta = some "" ∨
      ∃ s, meta = some s ∧ regexExec s.data = none) :
    ∀ i, calculateLinesToHighlight meta i = false := by
  rcases h with h | h | ⟨s, hs, hexec⟩
  · subst h
    exact highlight_of_exec_none none (by decide)
  · subst h
    exact highlight_of_exec_none _ (by decide)
  · subst hs
    exact highlight_of_exec_none _ hexec

/-- Witness for C3 at the absent meta string. -/
theorem C3_no_bracket_false_witness : calculateLinesToHighlight none 0 = false :=
  C3_no_bracket_false none (Or.inl rfl) 0

/-- Claim C4: comma-separated tokens combine with OR semantics — the
predicate holds at an index exactly when some parsed token's range
contains index + 1 — and the concrete scenarios from the spec hold. -/
theorem C4_or_semantics :
    (∀ (meta : Option String) (i : Nat),
        calculateLinesToHighlight meta i = true ↔
          ∃ parts, parts ∈ parsedTokens meta ∧ inRangeTok parts (i + 1) = true)
    ∧ calculateLinesToHighlight (some "\x7b2,5\x7d") 1 = true
    ∧ calculateLinesToHighlight (some "\x7b2,5\x7d") 4 = true
    ∧ calculateLinesToHighlight (some "\x7b2,5\x7d") 2 = false
    ∧ ((List.range 11).all fun i =>
        calculateLinesToHighlight (some "\x7b2,4-6,9\x7d") i
          == (i == 1 || i == 3 || i == 4 || i == 5 || i == 8)) = true := by
  refine ⟨?_, by decide, by decide, by decide, by decide⟩
  intro meta i
  rw [highlight_eq_any]
  simp [List.any_eq_true]

/-- Claim C7: the construction is deterministic and stateless — building
the predicate from the same meta string and querying at the same index
always yields the same boolean.  The regex carries no global flag, so
test and exec keep no match state; the embedding is accordingly a pure
function and the two builds are one and the same value. -/
theorem C7_deterministic (meta : Option String) (i : Nat) :
    calculateLinesToHighlight meta i = calculateLinesToHighlight meta i ∧
      calculateLinesToHighlightE meta = calculateLinesToHighlightE meta :=
  ⟨rfl, rfl⟩

/-- Witness for C7 at a concrete meta string and index. -/
theorem C7_deterministic_witness :
    calculateLinesToHighlight (some "\x7b2,5\x7d") 1
        = calculateLinesToHighlight (some "\x7b2,5\x7d") 1 ∧
      calculateLinesToHighlightE (some "\x7b2,5\x7d")
        = calculateLinesToHighlightE (some "\x7b2,5\x7d") :=
  C7_deterministic (some "\x7b2,5\x7d") 1

/-- Claim C9: a range token whose right-hand bound parses to 0 is
treated as a single-line token matching exactly its left bound, because
the bound 0 is falsy in the bounded/single discrimination; and a bare
token 0 matches no queried index since lineNumber = index + 1 is at
least 1. -/
theorem C9_zero_bounds :
    (∀ s ln : Nat, inRangeTok [some s, some 0] ln = inRangeTok [some s] ln)
    ∧ (∀ i : Nat,
        calculateLinesToHighlight (some "\x7b4-0\x7d") i = true ↔ i = 3)
    ∧ (∀ i : Nat, calculateLinesToHighlight (some "\x7b0\x7d") i = false) := by
  refine ⟨fun s ln => rfl, fun i => ?_, fun i => ?_⟩
  · rw [highlight_eq_any]
    have h : parsedTokens (some "\x7b4-0\x7d") = [[some 4, some 0]] := by decide
    rw [h]
    simp only [List.any_cons, List.any_nil, Bool.or_false, inRangeTok_pair,
      if_true, eq_self_iff_true, beq_iff_eq]
    omega
  · rw [highlight_eq_any]
    have h : parsedTokens (some "\x7b0\x7d") = [[some 0]] := by decide
    rw [h]
    simp [inRangeTok_single]

/-- Claim C10: the construction is total — for every meta string,
including the absent one, the source's control flow (test guard, then
capture-group extraction) succeeds and produces the predicate; the
guarded extraction can never fail because test and exec run the same
stateless match. -/
theorem C10_totality (meta : Option String) :
    calculateLinesToHighlightE meta = some (calculateLinesToHighlight meta) := by
  unfold calculateLinesToHighlightE calculateLinesToHighlight regexTest
  cases h : regexExec (metaString meta).data <;> simp [h]

/-- Counterexample to claim C1 as stated: the meta string whose first
bracket group is 1,2-3 contains the bounded range token 2-3 with
start ≤ end, yet the predicate answers true, not false, at
n - 1 = start - 1 - 1 = 0, because the separate bare token 1 covers that
line. -/
theorem C1_boundary_cex :
    [some 2, some 3] ∈ parsedTokens (some "\x7b1,2-3\x7d")
    ∧ calculateLinesToHighlight (some "\x7b1,2-3\x7d") (2 - 1 - 1) = true := by
  decide

/-- Claim C1 (amended): for every bounded range token start-end with
1 ≤ start ≤ end in the first bracket group, the predicate answers true
at n - 1 for every n with start ≤ n ≤ end; and when that token is the
only token of the group, the predicate is true at an index exactly when
index + 1 lies in the range — so it is false at n - 1 for n = start - 1
and n = end + 1, and at every other index outside the range.  In
particular the degenerate range 3-3 yields a predicate true only at
0-based index 2. -/
theorem C1_bounded_range :
    (∀ (meta : String) (s e : Nat), 1 ≤ s → s ≤ e →
        [some s, some e] ∈ parsedTokens (some meta) →
        (∀ n : Nat, s ≤ n → n ≤ e →
            calculateLinesToHighlight (some meta) (n - 1) = true)
        ∧ (parsedTokens (some meta) = [[some s, some e]] →
            ∀ i : Nat, calculateLinesToHighlight (some meta) i = true ↔
              s ≤ i + 1 ∧ i + 1 ≤ e))
    ∧ (∀ i : Nat,
        calculateLinesToHighlight (some "\x7b3-3\x7d") i = true ↔ i = 2) := by
  have main : ∀ (meta : String) (s e : Nat), 1 ≤ s → s ≤ e →
      [some s, some e] ∈ parsedTokens (some meta) →
      (∀ n : Nat, s ≤ n → n ≤ e →
          calculateLinesToHighlight (some meta) (n - 1) = true)
      ∧ (parsedTokens (some meta) = [[some s, some e]] →
          ∀ i : Nat, calculateLinesToHighlight (some meta) i = true ↔
            s ≤ i + 1 ∧ i + 1 ≤ e) := by
    intro meta s e hs hse hmem
    have he0 : ¬e = 0 := by omega
    constructor
    · intro n hn1 hn2
      rw [highlight_eq_any]
      refine List.any_eq_true.mpr ⟨[some s, some e], hmem, ?_⟩
      have hn : n - 1 + 1 = n := by omega
      rw [hn, inRangeTok_pair, if_neg he0]
      simp [hn1, hn2]
    · intro honly i
      rw [highlight_eq_any, honly]
      simp only [List.any_cons, List.any_nil, Bool.or_false,
        inRangeTok_pair, if_neg he0]
      simp [Bool.and_eq_true, decide_eq_true_eq]
  refine ⟨main, fun i => ?_⟩
  rw [(main "\x7b3-3\x7d" 3 3 (by decide) (by decide) (by decide)).2
    (by decide) i]
  omega

/-- Witness for C1 on the degenerate range 3-3: true at index 2, and
false at index 0, an index outside the range that is neither
start - 2 nor end. -/
theorem C1_bounded_range_witness :
    calculateLinesToHighlight (some "\x7b3-3\x7d") 2 = true
    ∧ calculateLinesToHighlight (some "\x7b3-3\x7d") 0 = false := by
  have h := C1_bounded_range.1 "\x7b3-3\x7d" 3 3 (by decide) (by decide)
    (by decide)
  refine ⟨h.1 3 (by decide) (by decide), ?_⟩
  cases hb : calculateLinesToHighlight (some "\x7b3-3\x7d") 0
  · rfl
  · exact absurd ((h.2 (by decide) 0).mp hb).1 (by omega)

/-- Claim C2: every 1-based line number listed in the first bracket
group as a bare, hyphen-free integer token is highlighted: the predicate
answers true at index n - 1, the + 1 mapping being applied exactly
once. -/
theorem C2_bare_token (meta : String) (content v : List Char) (n : Nat)
    (hexec : regexExec meta.data = some content)
    (hv : v ∈ splitOn ',' content) (hne : v ≠ [])
    (hdig : ∀ c ∈ v, c.isDigit = true) (hval : digitsVal v = n)
    (h1 : 1 ≤ n) :
    calculateLinesToHighlight (some meta) (n - 1) = true := by
  rw [highlight_eq_any]
  have htok : parsedTokens (some meta) = lineNumbersOf content := by
    unfold parsedTokens
    rw [show (metaString (some meta)) = meta from rfl, hexec]
  rw [htok]
  refine List.any_eq_true.mpr ⟨[some n], ?_, ?_⟩
  · unfold lineNumbersOf
    refine List.mem_map.mpr ⟨v, hv, ?_⟩
    rw [parseParts_digits v hne hdig, hval]
  · have hn : n - 1 + 1 = n := by omega
    rw [hn, inRangeTok_single]
    simp

/-- Witness for C2: the bare token 7 highlights 0-based index 6. -/
theorem C2_bare_token_witness :
    calculateLinesToHighlight (some "\x7b7\x7d") 6 = true :=
  C2_bare_token "\x7b7\x7d" ['7'] ['7'] 7 (by decide) (by decide)
    (by decide) (by decide) (by decide) (by decide)

/-- Claim C5: only the first matching bracket group determines the
predicate — the predicate built from the whole string agrees everywhere
with the one built from a string holding only that first group — and a
line listed solely in a later group is not highlighted. -/
theorem C5_first_group_only :
    (∀ (meta : String) (content : List Char),
        regexExec meta.data = some content →
        ∀ i, calculateLinesToHighlight (some meta) i
          = calculateLinesToHighlight
              (some (String.mk (lbrace :: (content ++ [rbrace])))) i)
    ∧ calculateLinesToHighlight (some "\x7b1\x7d\x7b2\x7d") 0 = true
    ∧ calculateLinesToHighlight (some "\x7b1\x7d\x7b2\x7d") 1 = false := by
  refine ⟨?_, by decide, by decide⟩
  intro meta content hexec i
  obtain ⟨hne, hall⟩ := firstGroup_mem meta.data content hexec
  have h2 : regexExec (String.mk (lbrace :: (content ++ [rbrace]))).data
      = some content := firstGroup_bracket content hne hall
  unfold calculateLinesToHighlight
  simp only [metaString]
  rw [show (String.mk (lbrace :: (content ++ [rbrace]))).data
      = lbrace :: (content ++ [rbrace]) from rfl] at h2
  rw [hexec, h2]

/-- Witness for C5: a meta string with trailing text and a second group
behaves like its first group alone. -/
theorem C5_first_group_only_witness :
    calculateLinesToHighlight (some "x \x7b1,2\x7d y \x7b9\x7d") 8
      = calculateLinesToHighlight
          (some (String.mk (lbrace :: (['1', ',', '2'] ++ [rbrace])))) 8 :=
  C5_first_group_only.1 "x \x7b1,2\x7d y \x7b9\x7d" ['1', ',', '2']
    (by decide) 8

/-- Counterexample to claim C6 as stated: the token 5- (empty right side
of the hyphen) does cause a line to be highlighted — its upper bound
parses to NaN, which is falsy, so the token is treated as the single
line 5 and the predicate answers true at index 4. -/
theorem C6_malformed_cex :
    [some 5, none] ∈ parsedTokens (some "\x7b5-\x7d")
    ∧ calculateLinesToHighlight (some "\x7b5-\x7d") 4 = true := by
  decide

/-- Claim C6 (amended): a token of the first bracket group whose first
segment does not parse as an integer (an empty segment from a trailing
comma, or a token such as -5 with an empty left side of the hyphen)
contributes false at every queried index, the non-numeric comparison
always evaluating false; but a token such as 5- with only the right
side empty is instead treated as the single line 5, since only its upper
bound is non-numeric and a falsy bound selects the equality branch. -/
theorem C6_malformed_tokens :
    (∀ parts : List (Option Nat), parts.getD 0 none = none →
        ∀ ln, inRangeTok parts ln = false)
    ∧ (∀ i, calculateLinesToHighlight (some "\x7b-5\x7d") i = false)
    ∧ (∀ i, calculateLinesToHighlight (some "\x7b2,\x7d") i
        = calculateLinesToHighlight (some "\x7b2\x7d") i)
    ∧ (∀ i, calculateLinesToHighlight (some "\x7b5-\x7d") i
        = calculateLinesToHighlight (some "\x7b5\x7d") i) := by
  refine ⟨inRangeTok_nan_start, fun i => ?_, fun i => ?_, fun i => ?_⟩
  · rw [highlight_eq_any]
    have h : parsedTokens (some "\x7b-5\x7d") = [[none, some 5]] := by decide
    rw [h]
    simp [inRangeTok_nan_start [none, some 5] rfl]
  · rw [highlight_eq_any, highlight_eq_any]
    have h1 : parsedTokens (some "\x7b2,\x7d") = [[some 2], [none]] := by
      decide
    have h2 : parsedTokens (some "\x7b2\x7d") = [[some 2]] := by decide
    rw [h1, h2]
    simp [inRangeTok_nan_start [none] rfl]
  · rw [highlight_eq_any, highlight_eq_any]
    have h1 : parsedTokens (some "\x7b5-\x7d") = [[some 5, none]] := by
      decide
    have h2 : parsedTokens (some "\x7b5\x7d") = [[some 5]] := by decide
    rw [h1, h2]
    rfl

/-- Witness for C6 on the empty token: it never matches. -/
theorem C6_malformed_tokens_witness : inRangeTok [none] 1 = false :=
  C6_malformed_tokens.1 [none] rfl 1

/-- Claim C8: a bounded range token with reversed bounds
(1 ≤ end < start) matches no line: the token itself answers false at
every line number, and a first bracket group consisting of that token
alone yields the constantly false predicate. -/
theorem C8_reversed_range (s e : Nat) (h1 : 1 ≤ e) (h2 : e < s) :
    (∀ ln, inRangeTok [some s, some e] ln = false)
    ∧ ∀ (meta : String), parsedTokens (some meta) = [[some s, some e]] →
        ∀ i, calculateLinesToHighlight (some meta) i = false := by
  have key : ∀ ln, inRangeTok [some s, some e] ln = false := by
    intro ln
    rw [inRangeTok_pair, if_neg (by omega : ¬e = 0)]
    rcases Nat.lt_or_ge ln s with hlt | hge
    · simp [Nat.not_le.mpr hlt]
    · have hle : ¬(ln ≤ e) := by omega
      simp [hle]
  refine ⟨key, fun meta hm i => ?_⟩
  rw [highlight_eq_any, hm]
  simp [key]

/-- Witness for C8 on the reversed range 5-3. -/
theorem C8_reversed_range_witness :
    calculateLinesToHighlight (some "\x7b5-3\x7d") 0 = false :=
  (C8_reversed_range 5 3 (by decide) (by decide)).2 "\x7b5-3\x7d"
    (by decide) 0

end Blog
